import Mathlib

/-!
Verification development for the team-expertise analysis pipeline of the
`teamxray` VS Code extension (`src/core/expertise-analyzer.ts`).

The TypeScript source is shallowly embedded: JavaScript strings are Lean
`String`s (manipulated through their underlying `List Char`), JavaScript
numbers that hold counts are `Nat`, timestamps and scores are `Int`,
`null`/`undefined` are `Option`, and thrown exceptions are `Except`.
Platform primitives that the analyzer merely calls (`JSON.parse`, the
balanced-brace regex, `Date` parsing, `Math.random`, the ambient clock and
the HTTP endpoint) are passed in as explicit function parameters, so every
definition of the analyzer itself is executable and total.
-/

namespace TeamXray

/-! ### JavaScript string and value helpers -/

/-- The whitespace characters relevant to `String.prototype.trim` and the
`\s` regex class for the inputs in play (ASCII whitespace). -/
def isWsChar (c : Char) : Bool := c = ' ' || c = '\n' || c = '\t' || c = '\r'

def trimL (l : List Char) : List Char := l.dropWhile isWsChar

def trimR (l : List Char) : List Char := (l.reverse.dropWhile isWsChar).reverse

/-- `String.prototype.trim` at the character-list level. -/
def trimC (l : List Char) : List Char := trimR (trimL l)

def trimStr (s : String) : String := ⟨trimC s.data⟩

/-- `l` contains `pat` as a contiguous substring (JS `String.prototype.includes`). -/
def listContains (l pat : List Char) : Bool :=
  match l with
  | [] => pat.isEmpty
  | c :: t => pat.isPrefixOf (c :: t) || listContains t pat

def strContains (s pat : String) : Bool := listContains s.data pat.data

/-- JS `s || d` for strings: the empty string is falsy. -/
def jsOrStr (s d : String) : String := if s = "" then d else s

/-- JS `a || b` for counts: `0` is falsy. -/
def jsOrNat (a b : Nat) : Nat := if a = 0 then b else a

/-- JS `o || d` where `o` may be `undefined` (`none`) or a string. -/
def jsOrOptStr (o : Option String) (d : String) : String :=
  match o with
  | some s => jsOrStr s d
  | none => d

/-- JS `o || undefined` for an optional string field. -/
def jsUndefIfEmpty (o : Option String) : Option String :=
  match o with
  | some s => if s = "" then none else some s
  | none => none

/-- Insertion-ordered deduplication, as performed by `new Set([...])`:
keeps the first occurrence of each element. -/
def jsSetDedupAux [DecidableEq α] (seen : List α) : List α → List α
  | [] => []
  | a :: l => if a ∈ seen then jsSetDedupAux seen l else a :: jsSetDedupAux (a :: seen) l

def jsSetDedup [DecidableEq α] (l : List α) : List α := jsSetDedupAux [] l

/-- `String.prototype.toLowerCase` for the ASCII file names in play. -/
def lowerStr (s : String) : String := ⟨s.data.map Char.toLower⟩

/-- `String.prototype.toUpperCase` for the ASCII extensions in play. -/
def upperStr (s : String) : String := ⟨s.data.map Char.toUpper⟩

/-! ### Data model (`expertise-analyzer.ts` interfaces) -/

/-- A commit as produced by `getLocalGitCommits`; `date` is the epoch value
`new Date(c.date).getTime()` used by the sampler's comparator. -/
structure Commit where
  sha : String
  authorName : String
  authorEmail : String
  date : Int
  message : String
deriving DecidableEq

/-- A contributor as produced by `getLocalGitContributors`. -/
structure Contributor where
  name : String
  email : String
  commits : Nat
  lastCommit : String
deriving DecidableEq

/-- The `Expert` interface.  `lastCommit` is an epoch timestamp. -/
structure Expert where
  name : String
  email : String
  expertise : Int
  contributions : Int
  lastCommit : Int
  specializations : List String
  communicationStyle : Option String
  teamRole : Option String
  hiddenStrengths : Option (List String)
  idealChallenges : Option (List String)
deriving DecidableEq

structure TeamDynamics where
  collaborationPatterns : List String
  communicationHighlights : List String
  knowledgeSharing : List String
deriving DecidableEq

structure ChallengeMatching where
  toughProblems : List String
  recommendedExperts : List String
deriving DecidableEq

structure FileExpertise where
  fileName : String
  filePath : String
  experts : List Expert
  lastModified : Int
  changeFrequency : Nat
deriving DecidableEq

structure ExpertiseAnalysis where
  repository : String
  generatedAt : Int
  totalFiles : Nat
  totalExperts : Nat
  fileExpertise : List FileExpertise
  expertProfiles : List Expert
  teamDynamics : Option TeamDynamics
  challengeMatching : Option ChallengeMatching
  insights : List String
deriving DecidableEq

/-- The `samplingApplied` record attached by `gatherRepositoryData`. -/
structure SamplingInfo where
  originalFiles : Nat
  originalCommits : Nat
  originalContributors : Nat
deriving DecidableEq

/-- The `repositoryData` object threaded through the pipeline. -/
structure RepoData where
  repository : String
  files : List String
  commits : List Commit
  contributors : List Contributor
  samplingApplied : Option SamplingInfo

/-- Ambient platform effects: the clock (`new Date()`), date-string parsing
(`new Date(string).getTime()`) and `Math.floor(Math.random()*10)` draws. -/
structure Ambient where
  now : Int
  parseDate : String → Int
  rand : Nat → Nat

/-! ### Sort comparators (all JS sorts are stable; `List.insertionSort` is
the stable sort used to model them) -/

def byDateDesc (a b : Commit) : Prop := b.date ≤ a.date

instance : DecidableRel byDateDesc := fun a b => inferInstanceAs (Decidable (b.date ≤ a.date))

instance : IsTotal Commit byDateDesc := ⟨fun a b => Int.le_total b.date a.date⟩

instance : IsTrans Commit byDateDesc := ⟨fun _ _ _ hab hbc => le_trans hbc hab⟩

def byCommitsDesc (a b : Contributor) : Prop := b.commits ≤ a.commits

instance : DecidableRel byCommitsDesc := fun a b => inferInstanceAs (Decidable (b.commits ≤ a.commits))

def byContributionsDesc (a b : Expert) : Prop := b.contributions ≤ a.contributions

instance : DecidableRel byContributionsDesc :=
  fun a b => inferInstanceAs (Decidable (b.contributions ≤ a.contributions))

def byCountDesc (a b : String × Nat) : Prop := b.2 ≤ a.2

instance : DecidableRel byCountDesc := fun a b => inferInstanceAs (Decidable (b.2 ≤ a.2))

/-! ### Size assessment (`assessRepositorySize`, lines 152–160) -/

inductive RepoSize where
  | small
  | medium
  | large
  | enterprise
deriving DecidableEq

/-- Position of a tier in the order small < medium < large < enterprise. -/
def RepoSize.rank : RepoSize → Nat
  | .small => 0
  | .medium => 1
  | .large => 2
  | .enterprise => 3

/-- The tier cascade of `assessRepositorySize`. -/
def repositorySizeOf (numFiles numContributors : Nat) : RepoSize :=
  if 1000 < numFiles ∨ 50 < numContributors then .enterprise
  else if 500 < numFiles ∨ 30 < numContributors then .large
  else if 200 < numFiles ∨ 20 < numContributors then .medium
  else .small

/-! ### Samplers (`sampleFiles`, `sampleCommits`, `sampleContributors`) -/

/-- The high-priority filename test of `sampleFiles`. -/
def fileIsHigh (f : String) : Bool :=
  let n := lowerStr f
  strContains n "readme" || strContains n "package.json" || strContains n "main" ||
    strContains n "index" || strContains n "app" || strContains n "server"

/-- The medium-priority filename test of `sampleFiles` (reached only when
the high test failed, per the `else if`). -/
def fileIsMedium (f : String) : Bool :=
  let n := lowerStr f
  strContains n "test" || strContains n "spec" || strContains n "config" ||
    strContains n "util"

/-- `sampleFiles` (lines 285–320).  `Math.floor(limit * 0.3)` is modelled as
`limit * 3 / 10` (exact for every limit in `SIZE_LIMITS`). -/
def sampleFiles (files : List String) (limit : Nat) : List String :=
  if files.length ≤ limit then files
  else
    let high := files.filter fileIsHigh
    let medium := files.filter fun f => !fileIsHigh f && fileIsMedium f
    let low := files.filter fun f => !fileIsHigh f && !fileIsMedium f
    let highTake := min high.length (limit * 3 / 10)
    let mediumTake := min medium.length (limit * 3 / 10)
    let lowTake := limit - highTake - mediumTake
    high.take highTake ++ medium.take mediumTake ++ low.take lowTake

/-- `sampleCommits` (lines 325–347).  `Math.floor(limit * 0.7)` is modelled
as `limit * 7 / 10` (exact for every limit in `SIZE_LIMITS`); the `for` loop
collecting `remaining[i * step]` is the `filterMap` below, whose guard
`i * step < remaining.length` is the loop condition. -/
def sampleCommits (commits : List Commit) (limit : Nat) : List Commit :=
  if commits.length ≤ limit then commits
  else
    let sorted := List.insertionSort byDateDesc commits
    let recentCount := limit * 7 / 10
    let distributedCount := limit - recentCount
    let recent := sorted.take recentCount
    let remaining := sorted.drop recentCount
    let step := max 1 (remaining.length / distributedCount)
    let distributed := (List.range distributedCount).filterMap fun i => remaining[i * step]?
    recent ++ distributed

/-- `sampleContributors` (lines 352–359). -/
def sampleContributors (contributors : List Contributor) (limit : Nat) : List Contributor :=
  if contributors.length ≤ limit then contributors
  else (List.insertionSort byCommitsDesc contributors).take limit

/-- `chunkArray` (lines 504–510); only ever invoked with chunk size 10.
A chunk size of 0 would not terminate in the source and is mapped to `[]`. -/
def chunkArray (l : List α) (k : Nat) : List (List α) :=
  if h : l.length = 0 ∨ k = 0 then []
  else l.take k :: chunkArray (l.drop k) k
termination_by l.length
decreasing_by
  simp only [not_or] at h
  have h1 : 0 < k := Nat.pos_of_ne_zero h.2
  have h2 : 0 < l.length := Nat.pos_of_ne_zero h.1
  simp only [List.length_drop]
  omega

/-! ### JSON extraction (`extractJSONFromResponse`, lines 829–857)

`JSON.parse` and the balanced-brace regex are platform primitives, passed in
as `parse` and `findSpan`; the fence-stripping string work is modelled
exactly. -/

/-- The `replace(/\s*```$/, '')` step: if the string ends in three backticks,
remove them together with the run of whitespace immediately before them. -/
def stripEndFence (l : List Char) : List Char :=
  if "```".data.isSuffixOf l then trimR (l.take (l.length - 3)) else l

/-- The fence-stripping prelude of `extractJSONFromResponse`: drop a leading
` ```json ` or ` ``` ` marker (plus following whitespace) and a trailing
` ``` ` marker (plus preceding whitespace). -/
def stripFences (l : List Char) : List Char :=
  if "```json".data.isPrefixOf l then stripEndFence (trimL (l.drop 7))
  else if "```".data.isPrefixOf l then stripEndFence (trimL (l.drop 3))
  else l

/-- `extractJSONFromResponse`: trim, strip fences, try `parse`; on failure
try the first balanced-brace span of the *original* response; return the
string that parsed, or `none` ("no JSON found"). -/
def extractJSONFromResponse {J : Type} (parse : String → Option J)
    (findSpan : String → Option String) (response : String) : Option String :=
  let clean : String := ⟨stripFences (trimC response.data)⟩
  if (parse clean).isSome then some clean
  else
    match findSpan response with
    | some m => if (parse m).isSome then some m else none
    | none => none

/-! ### Parsed-response decoding (`parseAIResponse`, lines 780–827) -/

/-- A loosely-typed expert record from the model's JSON: `none` models an
absent field (or, for `expertise`/`contributions`, a non-number; for
`specializations`/`hiddenStrengths`/`idealChallenges`, a non-array). -/
structure RawExpert where
  name : Option String
  email : Option String
  expertise : Option Int
  contributions : Option Int
  lastCommit : Option String
  specializations : Option (List String)
  communicationStyle : Option String
  teamRole : Option String
  hiddenStrengths : Option (List String)
  idealChallenges : Option (List String)
deriving DecidableEq

/-- The decoded shape of a successfully parsed AI response. -/
structure ParsedResponse where
  experts : Option (List RawExpert)
  insights : Option (List String)
  teamDynamics : Option TeamDynamics
  challengeMatching : Option ChallengeMatching
deriving DecidableEq

/-- The per-expert defaulting map of `parseAIResponse` (lines 794–810). -/
def processExpert (amb : Ambient) (i : Nat) (e : RawExpert) : Expert :=
  let idx := i + 1
  { name := jsOrOptStr e.name s!"Expert {idx}"
    email := jsOrOptStr e.email "unknown@example.com"
    expertise := e.expertise.getD 0
    contributions := e.contributions.getD 0
    lastCommit :=
      match e.lastCommit with
      | some s => if s = "" then amb.now else amb.parseDate s
      | none => amb.now
    specializations := e.specializations.getD []
    communicationStyle := jsUndefIfEmpty e.communicationStyle
    teamRole := jsUndefIfEmpty e.teamRole
    hiddenStrengths := e.hiddenStrengths
    idealChallenges := e.idealChallenges }

/-! ### Language inference and file-expertise mapping -/

/-- `mapExtensionToLanguage` (lines 215–234). -/
def mapExtensionToLanguage (ext : String) : String :=
  match ext with
  | "ts" => "TypeScript"
  | "js" => "JavaScript"
  | "tsx" => "React/TypeScript"
  | "jsx" => "React/JavaScript"
  | "py" => "Python"
  | "java" => "Java"
  | "cs" => "C#"
  | "cpp" => "C++"
  | "c" => "C"
  | "rs" => "Rust"
  | "go" => "Go"
  | "rb" => "Ruby"
  | "php" => "PHP"
  | "swift" => "Swift"
  | "kt" => "Kotlin"
  | _ => upperStr ext

/-- `f.split('.').pop()?.toLowerCase()`, with the empty string filtered out
as falsy. -/
def extOf (f : String) : Option String :=
  match (f.splitOn ".").getLast? with
  | some e => if lowerStr e = "" then none else some (lowerStr e)
  | none => none

/-- The `reduce` building `extensionCounts`: an insertion-ordered tally
(JS object property order for the non-numeric string keys in play). -/
def tallyExt (l : List String) : List (String × Nat) :=
  l.foldl
    (fun acc e =>
      if acc.any fun p => p.1 = e then
        acc.map fun p => if p.1 = e then (p.1, p.2 + 1) else p
      else acc ++ [(e, 1)])
    []

/-- `inferSpecializationsFromFiles` (lines 903–928). -/
def inferSpecializationsFromFiles (files : List String) : List String :=
  let extensions := files.filterMap extOf
  let counts := tallyExt extensions
  let top := ((List.insertionSort byCountDesc counts).take 3).map Prod.fst
  let specializations := top.foldl
    (fun acc ext =>
      let lang := mapExtensionToLanguage ext
      if lang ∈ acc then acc else acc ++ [lang])
    []
  if specializations.length > 0 then specializations else ["General Programming"]

/-- `mapFileExpertise` (lines 930–938); `Math.floor(Math.random()*10)+1` is
the ambient draw `rand i % 10 + 1` for the i-th file. -/
def mapFileExpertise (amb : Ambient) (files : List String) (experts : List Expert) :
    List FileExpertise :=
  files.enum.map fun p =>
    let file := p.2
    { fileName := jsOrStr (((file.splitOn "/").getLast?).getD "") file
      filePath := file
      experts := experts.take 2
      lastModified := amb.now
      changeFrequency := amb.rand p.1 % 10 + 1 }

/-- `repositoryData.samplingApplied?.originalFiles || repositoryData.files.length`:
the reported (pre-sampling) file total, with `0` falsy. -/
def reportedTotalFiles (data : RepoData) : Nat :=
  match data.samplingApplied with
  | some s => jsOrNat s.originalFiles data.files.length
  | none => data.files.length

/-! ### Fallback analysis (`createFallbackAnalysis`, lines 859–901) -/

/-- The per-contributor heuristic expert of the fallback path. -/
def fallbackExpert (amb : Ambient) (files : List String) (i : Nat) (c : Contributor) : Expert :=
  let idx := i + 1
  { name := jsOrStr c.name s!"Contributor {idx}"
    email := jsOrStr c.email "unknown@example.com"
    expertise := min 90 (30 + (c.commits : Int) * 2)
    contributions := (c.commits : Int)
    lastCommit := if c.lastCommit = "" then amb.now else amb.parseDate c.lastCommit
    specializations := inferSpecializationsFromFiles files
    communicationStyle := some "Analysis unavailable - local data only"
    teamRole := some "Team member"
    hiddenStrengths := some ["Code contribution"]
    idealChallenges := some ["General development tasks"] }

def createFallbackAnalysis (amb : Ambient) (data : RepoData) : ExpertiseAnalysis :=
  let experts := data.contributors.enum.map fun p => fallbackExpert amb data.files p.1 p.2
  let totalF := reportedTotalFiles data
  let nExperts := experts.length
  let topName := (experts.head?.map Expert.name).getD "undefined"
  let insights :=
    ([s!"Analyzed {totalF} files in the repository",
      s!"Found {nExperts} contributors with commit history",
      if experts.length > 0 then s!"Most active contributor: {topName}"
        else "No contributor data available",
      if data.samplingApplied.isSome then "Large repository - used smart sampling for analysis"
        else "Complete repository analysis",
      "For enhanced AI insights, check GitHub Models API configuration"]).filter
      fun s => s != ""
  { repository := jsOrStr data.repository "Unknown Repository"
    generatedAt := amb.now
    totalFiles := totalF
    totalExperts := experts.length
    fileExpertise := mapFileExpertise amb data.files experts
    expertProfiles := experts
    teamDynamics := some ⟨["Data not available in fallback mode"], ["Local analysis only"],
      ["Requires AI analysis for detailed insights"]⟩
    challengeMatching := some ⟨["Complex analysis requires AI integration"],
      (experts.take 2).map Expert.name⟩
    insights := insights }

/-- `parseAIResponse`: extract a JSON string, decode it, default every field;
both failure branches (no JSON found / parse throw) fall back locally. -/
def parseAIResponse (amb : Ambient) (jsonParse : String → Option ParsedResponse)
    (findSpan : String → Option String) (aiResponse : String) (data : RepoData) :
    ExpertiseAnalysis :=
  match extractJSONFromResponse jsonParse findSpan aiResponse with
  | none => createFallbackAnalysis amb data
  | some jsonContent =>
    match jsonParse jsonContent with
    | none => createFallbackAnalysis amb data
    | some parsed =>
      let processedExperts := (parsed.experts.getD []).enum.map fun p =>
        processExpert amb p.1 p.2
      { repository := data.repository
        generatedAt := amb.now
        totalFiles := reportedTotalFiles data
        totalExperts := processedExperts.length
        fileExpertise := mapFileExpertise amb data.files processedExperts
        expertProfiles := processedExperts
        teamDynamics := parsed.teamDynamics
        challengeMatching := parsed.challengeMatching
        insights := parsed.insights.getD [] }

/-! ### Chunk-result merging (`mergeChunkResults`, lines 515–551) -/

/-- Merging one expert into an existing map entry with the same email:
contributions are summed, expertise is the max, specializations are
set-unioned preserving first-occurrence order. -/
def mergeExpertInto (x e : Expert) : Expert :=
  { x with contributions := x.contributions + e.contributions,
           expertise := max x.expertise e.expertise,
           specializations := jsSetDedup (x.specializations ++ e.specializations) }

/-- One step of the `expertMap` fold.  A JS `Map` keyed by `expert.email` is
insertion-ordered with at most one entry per key, and `set` on an existing
key updates it in place, so the map is an association list updated at the
first (only) matching entry. -/
def insertExpert : List Expert → Expert → List Expert
  | [], e => [e]
  | x :: m, e => if x.email = e.email then mergeExpertInto x e :: m else x :: insertExpert m e

def mergeChunkResults (amb : Ambient) (chunkResults : List ExpertiseAnalysis)
    (data : RepoData) : ExpertiseAnalysis :=
  let allExperts := chunkResults.flatMap ExpertiseAnalysis.expertProfiles
  let allInsights := chunkResults.flatMap ExpertiseAnalysis.insights
  let mergedExperts := List.insertionSort byContributionsDesc (allExperts.foldl insertExpert [])
  let nChunks := chunkResults.length
  { repository := data.repository
    generatedAt := amb.now
    totalFiles := reportedTotalFiles data
    totalExperts := mergedExperts.length
    fileExpertise := mapFileExpertise amb data.files mergedExperts
    expertProfiles := mergedExperts
    teamDynamics := chunkResults.head?.bind ExpertiseAnalysis.teamDynamics
    challengeMatching := chunkResults.head?.bind ExpertiseAnalysis.challengeMatching
    insights := jsSetDedup allInsights ++
      ["Analysis completed using chunked processing for large repository",
       s!"Processed {nChunks} data chunks to handle repository size"] }

/-! ### Orchestrator (`performSmartAIAnalysis` / `performStandardAnalysis` /
`performChunkedAnalysis`, lines 364–499)

The HTTP endpoint is the oracle `Env.call` (indexed by a running call
counter); `fuel` bounds the depth of the 413-triggered `standard → chunked`
recursion, which the source does not bound — a result of `none` means the
run did not complete within `fuel` nested 413 retries.  A thrown exception
is `Except.error`, a JS `null` result is the inner `none`. -/

/-- `estimatePromptSize` (lines 389–401). -/
def estimatePromptSize (data : RepoData) : Nat :=
  let contributorsText := String.intercalate "\n" (data.contributors.map fun c =>
    let nm := c.name
    let em := c.email
    let cm := c.commits
    s!"{nm} ({em}) - {cm} commits")
  let commitsText := String.intercalate "\n" (data.commits.map fun c =>
    let an := c.authorName
    let msg := c.message
    s!"{an}: {msg}")
  let filesText := String.intercalate ", " (data.files.take 20)
  contributorsText.length + commitsText.length + filesText.length + 2000

/-- Outcome of one HTTP call to the completion endpoint. -/
inductive CallOutcome where
  | ok (resp : String)
  | err413
  | errOther

/-- The platform environment of an analysis run. -/
structure Env where
  apiKey : Option String
  call : Nat → CallOutcome
  amb : Ambient
  jsonParse : String → Option ParsedResponse
  findSpan : String → Option String

/-- The reduced-scope payload built for one contributor chunk (lines 469–474). -/
def chunkData (data : RepoData) (chunk : List Contributor) : RepoData :=
  { data with contributors := chunk, commits := data.commits.take 20,
              files := data.files.take 15 }

/-- The body of `performStandardAnalysis`: `null` without a token;
otherwise one call — a response is parsed, HTTP 413 falls back to chunked
analysis (the continuation `onChunked`, with the next fuel level), and any
other error is rethrown. -/
def stdStep (env : Env) (data : RepoData) (k : Nat)
    (onChunked : RepoData → Nat → Option (Except Unit (Option ExpertiseAnalysis) × Nat)) :
    Option (Except Unit (Option ExpertiseAnalysis) × Nat) :=
  match env.apiKey with
  | none => some (.ok none, k)
  | some _ =>
    match env.call k with
    | .ok resp =>
      some (.ok (some (parseAIResponse env.amb env.jsonParse env.findSpan resp data)), k + 1)
    | .errOther => some (.error (), k + 1)
    | .err413 => onChunked data (k + 1)

/-- The per-chunk loop of `performChunkedAnalysis`: each chunk runs the
standard analysis (`std`); a chunk that throws is skipped, a `null` chunk
result is not collected. -/
def chunkLoopStep (std : RepoData → Nat → Option (Except Unit (Option ExpertiseAnalysis) × Nat))
    (data : RepoData) : List (List Contributor) → Nat →
    Option (List ExpertiseAnalysis × Nat)
  | [], k => some ([], k)
  | c :: rest, k =>
    match std (chunkData data c) k with
    | none => none
    | some (.error _, kk) => chunkLoopStep std data rest kk
    | some (.ok none, kk) => chunkLoopStep std data rest kk
    | some (.ok (some a), kk) =>
      match chunkLoopStep std data rest kk with
      | none => none
      | some (l, kk2) => some (a :: l, kk2)

/-- The body of `performChunkedAnalysis`: analyze contributor chunks of 10;
if every chunk failed use the fallback, otherwise merge the chunk results.
`recur` is the chunked analysis a per-chunk standard call retries on 413. -/
def chunkedCore (env : Env) (data : RepoData) (k : Nat)
    (recur : RepoData → Nat → Option (Except Unit (Option ExpertiseAnalysis) × Nat)) :
    Option (Except Unit (Option ExpertiseAnalysis) × Nat) :=
  match chunkLoopStep (fun d kk => stdStep env d kk recur) data
      (chunkArray data.contributors 10) k with
  | none => none
  | some (results, kk) =>
    if results.isEmpty then some (.ok (some (createFallbackAnalysis env.amb data)), kk)
    else some (.ok (some (mergeChunkResults env.amb results data)), kk)

/-- `performChunkedAnalysis`, with `fuel` bounding the depth of the
unbounded 413-triggered standard→chunked recursion of the source. -/
def performChunkedAnalysis : Nat → Env → RepoData → Nat →
    Option (Except Unit (Option ExpertiseAnalysis) × Nat)
  | 0, env, data, k => chunkedCore env data k fun _ _ => none
  | f + 1, env, data, k => chunkedCore env data k (performChunkedAnalysis f env)

/-- `performStandardAnalysis`. -/
def performStandardAnalysis (fuel : Nat) (env : Env) (data : RepoData) (k : Nat) :
    Option (Except Unit (Option ExpertiseAnalysis) × Nat) :=
  stdStep env data k fun d kk =>
    match fuel with
    | 0 => none
    | f + 1 => performChunkedAnalysis f env d kk

/-- `performSmartAIAnalysis`: choose standard or chunked by estimated prompt
size; any exception escaping either strategy is caught and resolved by the
local fallback. -/
def performSmartAIAnalysis (fuel : Nat) (env : Env) (data : RepoData) (k : Nat) :
    Option (Except Unit (Option ExpertiseAnalysis) × Nat) :=
  let r :=
    if 100000 < estimatePromptSize data then performChunkedAnalysis fuel env data k
    else performStandardAnalysis fuel env data k
  match r with
  | some (.error _, kk) => some (.ok (some (createFallbackAnalysis env.amb data)), kk)
  | other => other

/-- Specification helper: the total contribution count attributed to an
email in a list of expert profiles. -/
def contribSum (em : String) (l : List Expert) : Int :=
  ((l.filter fun e => e.email = em).map Expert.contributions).sum

/-! ### Concrete fixtures used by witnesses and counterexamples -/

/-- A fixed ambient environment (clock at 0, trivial date parser and RNG). -/
def ambW : Ambient := ⟨0, fun _ => 0, fun _ => 0⟩

/-- A minimal repository-data value: no files, commits or contributors. -/
def dataW : RepoData := ⟨"repo", [], [], [], none⟩

/-- Three demo commits with distinct dates, newest (date 30) last. -/
def demoCommits : List Commit :=
  [⟨"a", "A", "a@x", 10, "m1"⟩, ⟨"b", "B", "b@x", 30, "m2"⟩, ⟨"c", "C", "c@x", 20, "m3"⟩]

/-- A demo contributor. -/
def contribW : Contributor := ⟨"N", "n@x", 1, ""⟩

/-- A raw expert record carrying the duplicated email. -/
def rawDup : RawExpert :=
  ⟨some "A", some "a@b.c", some 5, some 3, none, some [], none, none, none, none⟩

/-- A parsed response whose expert list repeats one email. -/
def prDup : ParsedResponse := ⟨some [rawDup, rawDup], some [], none, none⟩

/-- A deterministic stand-in for `JSON.parse` that recognises exactly the
response string `"r"` and decodes it to `prDup`. -/
def jpDup : String → Option ParsedResponse := fun s => if s = "r" then some prDup else none

/-- A balanced-brace matcher that never matches. -/
def fsNone : String → Option String := fun _ => none

/-- A stand-in for `JSON.parse` that accepts exactly `"ok"`. -/
def parseOk : String → Option Unit := fun s => if s = "ok" then some () else none

/-- A stand-in for `JSON.parse` accepting exactly the object text `{}`
modulo surrounding whitespace (as `JSON.parse` does). -/
def parseObj : String → Option Unit :=
  fun s => if trimStr s = "\x7b\x7d" then some () else none

/-- A payload wrapped in a ` ```json ` Markdown fence. -/
def fenceWrapJson (s : String) : String := ⟨"```json\n".data ++ s.data ++ "\n```".data⟩

/-- A payload wrapped in a bare ` ``` ` Markdown fence. -/
def fenceWrapPlain (s : String) : String := ⟨"```\n".data ++ s.data ++ "\n```".data⟩

/-- An environment with a token whose calls always succeed with body `"x"`. -/
def envOk : Env := ⟨some "t", fun _ => .ok "x", ambW, fun _ => none, fsNone⟩

/-- An environment with no API token. -/
def envNull : Env := ⟨none, fun _ => .ok "x", ambW, fun _ => none, fsNone⟩

/-- The result of a smart-analysis run in `envOk` on `dataW`: the single
call succeeds, its unparseable body resolves to the local fallback. -/
def rW0 : Except Unit (Option ExpertiseAnalysis) × Nat :=
  (Except.ok (some (createFallbackAnalysis ambW dataW)), 1)

/-! ### Theorems -/

/-- Claim C4: every `ExpertiseAnalysis` produced by any of the three
result-constructing operations — `parseAIResponse`, `mergeChunkResults`,
`createFallbackAnalysis` — satisfies `totalExperts = expertProfiles.length`. -/
theorem c4_totalExperts_eq_profiles_length
    (amb : Ambient) (jsonParse : String → Option ParsedResponse)
    (findSpan : String → Option String) (aiResponse : String) (data : RepoData)
    (amb₂ : Ambient) (chunkResults : List ExpertiseAnalysis) (data₂ : RepoData)
    (amb₃ : Ambient) (data₃ : RepoData) :
    (parseAIResponse amb jsonParse findSpan aiResponse data).totalExperts =
      (parseAIResponse amb jsonParse findSpan aiResponse data).expertProfiles.length ∧
    (mergeChunkResults amb₂ chunkResults data₂).totalExperts =
      (mergeChunkResults amb₂ chunkResults data₂).expertProfiles.length ∧
    (createFallbackAnalysis amb₃ data₃).totalExperts =
      (createFallbackAnalysis amb₃ data₃).expertProfiles.length := by
  refine ⟨?_, rfl, rfl⟩
  unfold parseAIResponse
  cases hE : extractJSONFromResponse jsonParse findSpan aiResponse with
  | none => rfl
  | some j =>
    cases hP : jsonParse j with
    | none => simp only [hP]; rfl
    | some parsed => simp only [hP]

/-- Claim C5: size-tier classification is monotonic — if the second input
has at least as many files and at least as many contributors, its tier (in
the order small < medium < large < enterprise) is at least the first's. -/
theorem c5_tier_monotone (nf nc nf' nc' : Nat) (hf : nf ≤ nf') (hc : nc ≤ nc') :
    (repositorySizeOf nf nc).rank ≤ (repositorySizeOf nf' nc').rank := by
  unfold repositorySizeOf
  split_ifs <;> simp only [RepoSize.rank] <;> omega

/-- Witness for C5 at files 100 → 600, contributors 10 → 10. -/
theorem c5_tier_monotone_witness :
    100 ≤ 600 ∧ 10 ≤ 10 ∧
      (repositorySizeOf 100 10).rank ≤ (repositorySizeOf 600 10).rank :=
  ⟨by decide, by decide, c5_tier_monotone 100 10 600 10 (by decide) (by decide)⟩

/-- Claim C8: the fallback analysis is a total function and, on an input
with no contributors and no files, reports `totalExperts = 0` together with
a non-empty insights list. -/
theorem c8_fallback_empty (amb : Ambient) (data : RepoData)
    (hc : data.contributors = []) (hf : data.files = []) :
    (createFallbackAnalysis amb data).totalExperts = 0 ∧
    (createFallbackAnalysis amb data).insights ≠ [] := by
  constructor
  · simp [createFallbackAnalysis, hc]
  · have hm : "For enhanced AI insights, check GitHub Models API configuration" ∈
        (createFallbackAnalysis amb data).insights := by
      unfold createFallbackAnalysis
      refine List.mem_filter.mpr ⟨?_, by decide⟩
      simp
    exact List.ne_nil_of_mem hm

/-- Witness for C8 at the empty repository data. -/
theorem c8_fallback_empty_witness :
    dataW.contributors = [] ∧ dataW.files = [] ∧
      ((createFallbackAnalysis ambW dataW).totalExperts = 0 ∧
       (createFallbackAnalysis ambW dataW).insights ≠ []) :=
  ⟨rfl, rfl, c8_fallback_empty ambW dataW rfl rfl⟩

/-- Claim C10: every string returned by `extractJSONFromResponse` parses
successfully, so the `JSON.parse` that `parseAIResponse` performs on a
non-null extraction result cannot fail — the corresponding catch branch is
unreachable from a parse failure of the extracted string. -/
theorem c10_extracted_string_parses {J : Type} (parse : String → Option J)
    (findSpan : String → Option String) (response r : String)
    (h : extractJSONFromResponse parse findSpan response = some r) :
    ∃ v, parse r = some v := by
  unfold extractJSONFromResponse at h
  by_cases h1 : (parse ⟨stripFences (trimC response.data)⟩).isSome
  · simp only [h1, if_true] at h
    cases h
    exact Option.isSome_iff_exists.mp h1
  · simp only [h1, Bool.false_eq_true, if_false] at h
    cases hS : findSpan response with
    | none => rw [hS] at h; cases h
    | some m =>
      rw [hS] at h
      by_cases h2 : (parse m).isSome
      · simp only [h2, if_true] at h
        cases h
        exact Option.isSome_iff_exists.mp h2
      · simp only [h2, Bool.false_eq_true, if_false] at h
        cases h

/-- Witness for C10: a concrete parser and response on which the extraction
succeeds and the extracted string parses. -/
theorem c10_extracted_string_parses_witness :
    extractJSONFromResponse parseOk fsNone "ok" = some "ok" ∧
      ∃ v, parseOk "ok" = some v :=
  ⟨by decide, c10_extracted_string_parses parseOk fsNone "ok" "ok" (by decide)⟩

/-! ### Expert-map lemmas (for C3 and C6) -/

theorem email_mergeExpertInto (x e : Expert) : (mergeExpertInto x e).email = x.email := rfl

theorem mem_map_email_insertExpert (m : List Expert) (e : Expert) (a : String) :
    a ∈ (insertExpert m e).map Expert.email ↔ a ∈ m.map Expert.email ∨ a = e.email := by
  induction m with
  | nil => simp [insertExpert]
  | cons x m ih =>
    by_cases hx : x.email = e.email
    · simp only [insertExpert, hx, if_true, List.map_cons, List.mem_cons,
        email_mergeExpertInto]
      tauto
    · simp only [insertExpert, hx, if_false, List.map_cons, List.mem_cons, ih]
      tauto

theorem nodup_email_insertExpert (m : List Expert) (e : Expert)
    (h : (m.map Expert.email).Nodup) : ((insertExpert m e).map Expert.email).Nodup := by
  induction m with
  | nil => simp [insertExpert]
  | cons x m ih =>
    rw [List.map_cons, List.nodup_cons] at h
    by_cases hx : x.email = e.email
    · simp only [insertExpert, hx, if_true, List.map_cons, List.nodup_cons,
        email_mergeExpertInto]
      exact ⟨by rw [← hx]; exact h.1, h.2⟩
    · simp only [insertExpert, hx, if_false, List.map_cons, List.nodup_cons]
      refine ⟨?_, ih h.2⟩
      rw [mem_map_email_insertExpert]
      rintro (hmem | heq)
      · exact h.1 hmem
      · exact hx heq

theorem nodup_email_foldl (l : List Expert) :
    ∀ acc, (acc.map Expert.email).Nodup →
      ((l.foldl insertExpert acc).map Expert.email).Nodup := by
  induction l with
  | nil => intro acc h; exact h
  | cons e l ih => intro acc h; exact ih _ (nodup_email_insertExpert acc e h)

/-- Claim C3 (amended): every `ExpertiseAnalysis` produced by
`mergeChunkResults` has pairwise-distinct expert emails; the parsed and
fallback paths copy incoming emails verbatim, so uniqueness holds only on
the chunk-merge path. -/
theorem c3_amended_merge_emails_nodup (amb : Ambient)
    (chunkResults : List ExpertiseAnalysis) (data : RepoData) :
    ((mergeChunkResults amb chunkResults data).expertProfiles.map Expert.email).Nodup := by
  have h0 : ((((chunkResults.flatMap ExpertiseAnalysis.expertProfiles).foldl
      insertExpert []).map Expert.email)).Nodup :=
    nodup_email_foldl _ [] (by simp)
  have hperm := List.perm_insertionSort byContributionsDesc
    ((chunkResults.flatMap ExpertiseAnalysis.expertProfiles).foldl insertExpert [])
  exact ((hperm.map Expert.email).symm.nodup h0)

/-- Counterexample to claim C3 as stated: on the standard parsed path, an
AI response whose expert list repeats an email yields an analysis whose
`expertProfiles` contain that email twice. -/
theorem c3_counterexample :
    ¬ (((parseAIResponse ambW jpDup fsNone "r" dataW).expertProfiles.map
        Expert.email).Nodup) := by
  decide

/-! ### Contribution-sum lemmas (for C6) -/

theorem contribSum_append (em : String) (l₁ l₂ : List Expert) :
    contribSum em (l₁ ++ l₂) = contribSum em l₁ + contribSum em l₂ := by
  simp [contribSum, List.filter_append]

theorem contributions_mergeExpertInto (x e : Expert) :
    (mergeExpertInto x e).contributions = x.contributions + e.contributions := rfl

theorem contribSum_nil (em : String) : contribSum em [] = 0 := rfl

theorem contribSum_cons (em : String) (x : Expert) (l : List Expert) :
    contribSum em (x :: l) =
      (if x.email = em then x.contributions else 0) + contribSum em l := by
  by_cases h : x.email = em <;> simp [contribSum, List.filter_cons, h]

theorem contribSum_insertExpert (em : String) (m : List Expert) (e : Expert) :
    contribSum em (insertExpert m e) =
      contribSum em m + (if e.email = em then e.contributions else 0) := by
  induction m with
  | nil =>
    rw [show insertExpert [] e = [e] from rfl, contribSum_cons, contribSum_nil]
    ring
  | cons x m ih =>
    by_cases hx : x.email = e.email
    · rw [show insertExpert (x :: m) e = mergeExpertInto x e :: m by
          simp [insertExpert, hx],
        contribSum_cons, contribSum_cons, email_mergeExpertInto,
        contributions_mergeExpertInto]
      by_cases hm : x.email = em
      · have he : e.email = em := by rw [← hx]; exact hm
        rw [if_pos hm, if_pos hm, if_pos he]
        ring
      · have he : ¬ e.email = em := by rw [← hx]; exact hm
        rw [if_neg hm, if_neg hm, if_neg he]
        ring
    · rw [show insertExpert (x :: m) e = x :: insertExpert m e by
          simp [insertExpert, hx],
        contribSum_cons, contribSum_cons, ih]
      ring

theorem contribSum_foldl (em : String) (l : List Expert) :
    ∀ acc, contribSum em (l.foldl insertExpert acc) =
      contribSum em acc + contribSum em l := by
  induction l with
  | nil => intro acc; rw [List.foldl_nil, contribSum_nil]; ring
  | cons e l ih =>
    intro acc
    rw [List.foldl_cons, ih, contribSum_insertExpert, contribSum_cons]
    ring

theorem contribSum_perm (em : String) {l₁ l₂ : List Expert} (h : l₁.Perm l₂) :
    contribSum em l₁ = contribSum em l₂ := by
  unfold contribSum
  exact List.Perm.sum_eq ((h.filter _).map _)

theorem contribSum_mergeChunkResults (amb : Ambient) (rs : List ExpertiseAnalysis)
    (data : RepoData) (em : String) :
    contribSum em (mergeChunkResults amb rs data).expertProfiles =
      contribSum em (rs.flatMap ExpertiseAnalysis.expertProfiles) := by
  have h1 : contribSum em (mergeChunkResults amb rs data).expertProfiles =
      contribSum em ((rs.flatMap ExpertiseAnalysis.expertProfiles).foldl insertExpert []) :=
    contribSum_perm em (List.perm_insertionSort _ _)
  rw [h1, contribSum_foldl]
  simp [contribSum]

/-- Claim C6: merging chunk results `[A,B]` and then merging that result
with `[C]` attributes every email the same total contribution count as a
single-pass merge of `[A,B,C]`. -/
theorem c6_merge_contribution_totals (amb₁ amb₂ : Ambient) (data₁ data₂ : RepoData)
    (A B C : ExpertiseAnalysis) (em : String) :
    contribSum em (mergeChunkResults amb₂
        [mergeChunkResults amb₁ [A, B] data₁, C] data₂).expertProfiles =
      contribSum em (mergeChunkResults amb₁ [A, B, C] data₁).expertProfiles := by
  rw [contribSum_mergeChunkResults, contribSum_mergeChunkResults]
  simp only [List.flatMap_cons, List.flatMap_nil, List.append_nil]
  rw [contribSum_append, contribSum_mergeChunkResults]
  simp only [List.flatMap_cons, List.flatMap_nil, List.append_nil]
  rw [contribSum_append, contribSum_append, contribSum_append]
  ring

/-! ### Sampler size lemmas (for C2) -/

/-- Counterexample to claim C2 as stated: 1001 files all matching a
high-priority keyword (with 51 contributors, so the claim's hypotheses
hold) make `sampleFiles` return 300 items, not the enterprise limit 1000 —
the 70% low-priority share of the budget goes unfilled. -/
theorem c2_counterexample :
    1000 < (List.replicate 1001 "main").length ∧
    50 < (List.replicate 51 contribW).length ∧
    (sampleFiles (List.replicate 1001 "main") 1000).length = 300 := by
  have h1 : fileIsHigh "main" = true := by decide
  have e1 : (List.replicate 1001 "main").filter fileIsHigh = List.replicate 1001 "main" := by
    rw [List.filter_replicate, h1, if_pos rfl]
  have e2 : (List.replicate 1001 "main").filter
      (fun f => !fileIsHigh f && fileIsMedium f) = [] := by
    rw [List.filter_replicate, if_neg]
    simp [h1]
  have e3 : (List.replicate 1001 "main").filter
      (fun f => !fileIsHigh f && !fileIsMedium f) = [] := by
    rw [List.filter_replicate, if_neg]
    simp [h1]
  refine ⟨by rw [List.length_replicate]; omega, by rw [List.length_replicate]; omega, ?_⟩
  rw [sampleFiles, if_neg (by rw [List.length_replicate]; omega)]
  simp only [e1, e2, e3, List.length_append, List.length_take, List.length_replicate,
    List.length_nil]
  omega

/-- Claim C2 (amended): with more than 1000 files and more than 50
contributors the tier is `enterprise` and `sampleContributors` returns
exactly 50 items; `sampleFiles` returns exactly 1000 items provided the
three priority buckets can actually fill the budget (the low bucket holds
at least `1000 - highTake - mediumTake` files) — without that proviso the
output can be shorter. -/
theorem c2_amended_enterprise_limits (files : List String) (contributors : List Contributor)
    (hf : 1000 < files.length) (hc : 50 < contributors.length)
    (hlow : 1000 ≤ min (files.filter fileIsHigh).length (1000 * 3 / 10) +
        min (files.filter fun f => !fileIsHigh f && fileIsMedium f).length (1000 * 3 / 10) +
        (files.filter fun f => !fileIsHigh f && !fileIsMedium f).length) :
    repositorySizeOf files.length contributors.length = .enterprise ∧
    (sampleFiles files 1000).length = 1000 ∧
    (sampleContributors contributors 50).length = 50 := by
  refine ⟨?_, ?_, ?_⟩
  · rw [repositorySizeOf, if_pos (Or.inl hf)]
  · rw [sampleFiles, if_neg (by omega)]
    simp only [List.length_append, List.length_take]
    omega
  · rw [sampleContributors, if_neg (by omega)]
    simp only [List.length_take, List.length_insertionSort]
    omega

/-- Witness for C2 (amended) at 1200 plain files and 60 contributors. -/
theorem c2_amended_enterprise_limits_witness :
    1000 < (List.replicate 1200 "f").length ∧
    50 < (List.replicate 60 contribW).length ∧
    (repositorySizeOf (List.replicate 1200 "f").length
        (List.replicate 60 contribW).length = .enterprise ∧
      (sampleFiles (List.replicate 1200 "f") 1000).length = 1000 ∧
      (sampleContributors (List.replicate 60 contribW) 50).length = 50) :=
  ⟨by rw [List.length_replicate]; omega, by rw [List.length_replicate]; omega,
    c2_amended_enterprise_limits _ _ (by rw [List.length_replicate]; omega)
      (by rw [List.length_replicate]; omega) (by
      have h1 : fileIsHigh "f" = false := by decide
      have h2 : fileIsMedium "f" = false := by decide
      have e1 : (List.replicate 1200 "f").filter fileIsHigh = [] := by
        rw [List.filter_replicate, if_neg]
        simp [h1]
      have e2 : (List.replicate 1200 "f").filter
          (fun f => !fileIsHigh f && fileIsMedium f) = [] := by
        rw [List.filter_replicate, if_neg]
        simp [h1, h2]
      have e3 : (List.replicate 1200 "f").filter
          (fun f => !fileIsHigh f && !fileIsMedium f) = List.replicate 1200 "f" := by
        rw [List.filter_replicate, if_pos]
        simp [h1, h2]
      rw [e1, e2, e3]
      simp only [List.length_nil, List.length_replicate]
      omega)⟩

/-! ### Commit-sampler lemmas (for C1) -/

theorem length_filterMap_range {α : Type} (n : Nat) (f : Nat → Option α)
    (h : ∀ i, i < n → (f i).isSome = true) :
    ((List.range n).filterMap f).length = n := by
  induction n with
  | zero => rfl
  | succ n ih =>
    rw [List.range_succ, List.filterMap_append]
    obtain ⟨x, hx⟩ := Option.isSome_iff_exists.mp (h n (by omega))
    rw [List.length_append]
    rw [ih fun i hi => h i (by omega)]
    simp [List.filterMap_cons, hx]

theorem filterMap_range_head {α : Type} (d : Nat) (hd : 0 < d) (f : Nat → Option α)
    (x : α) (h0 : f 0 = some x) :
    ∃ rest, (List.range d).filterMap f = x :: rest := by
  obtain ⟨k, rfl⟩ : ∃ k, d = k + 1 := ⟨d - 1, by omega⟩
  rw [List.range_succ_eq_map, List.filterMap_cons, h0]
  exact ⟨_, rfl⟩

/-- The stride index of the distributed sample never leaves the remainder:
for `i < d` and `d < r`, `i * max 1 (r / d) < r`. -/
theorem stride_lt (r d i : Nat) (hd : 0 < d) (hdr : d < r) (hi : i < d) :
    i * max 1 (r / d) < r := by
  have h1 : 1 ≤ r / d := (Nat.one_le_div_iff hd).mpr (le_of_lt hdr)
  have hstep : max 1 (r / d) = r / d := by omega
  rw [hstep]
  have h2 : d * (r / d) ≤ r := by
    rw [mul_comm]
    exact Nat.div_mul_le_self r d
  have h3 : i * (r / d) ≤ (d - 1) * (r / d) :=
    Nat.mul_le_mul_right (r / d) (by omega)
  have h4 : (d - 1) * (r / d) = d * (r / d) - r / d := Nat.sub_one_mul d (r / d)
  omega

theorem sample_core_length (sorted : List Commit) (limit : Nat) (hpos : 0 < limit)
    (hlt : limit < sorted.length) :
    (sorted.take (limit * 7 / 10) ++
      (List.range (limit - limit * 7 / 10)).filterMap
        (fun i => (sorted.drop (limit * 7 / 10))[i * max 1
          ((sorted.drop (limit * 7 / 10)).length / (limit - limit * 7 / 10))]?)).length
      = limit := by
  have hrc : limit * 7 / 10 < limit := by omega
  have hdpos : 0 < limit - limit * 7 / 10 := by omega
  have hrlen : (sorted.drop (limit * 7 / 10)).length = sorted.length - limit * 7 / 10 :=
    List.length_drop _ _
  have hdr : limit - limit * 7 / 10 < (sorted.drop (limit * 7 / 10)).length := by
    rw [hrlen]; omega
  have hfull : ((List.range (limit - limit * 7 / 10)).filterMap
      (fun i => (sorted.drop (limit * 7 / 10))[i * max 1
        ((sorted.drop (limit * 7 / 10)).length / (limit - limit * 7 / 10))]?)).length
      = limit - limit * 7 / 10 := by
    apply length_filterMap_range
    intro i hi
    rw [List.getElem?_eq_getElem (stride_lt _ _ _ hdpos hdr hi)]
    rfl
  rw [List.length_append, List.length_take, hfull]
  omega

theorem sample_core_take (sorted : List Commit) (limit : Nat) (hpos : 0 < limit)
    (hlt : limit < sorted.length) :
    (sorted.take (limit * 7 / 10) ++
      (List.range (limit - limit * 7 / 10)).filterMap
        (fun i => (sorted.drop (limit * 7 / 10))[i * max 1
          ((sorted.drop (limit * 7 / 10)).length / (limit - limit * 7 / 10))]?)).take
        ((limit * 7 + 9) / 10)
      = sorted.take ((limit * 7 + 9) / 10) := by
  have hrc : limit * 7 / 10 < limit := by omega
  have hdpos : 0 < limit - limit * 7 / 10 := by omega
  have hrclen : (sorted.take (limit * 7 / 10)).length = limit * 7 / 10 := by
    rw [List.length_take]; omega
  have hdr : limit - limit * 7 / 10 < (sorted.drop (limit * 7 / 10)).length := by
    rw [List.length_drop]; omega
  by_cases hc : (limit * 7 + 9) / 10 ≤ limit * 7 / 10
  · rw [List.take_append_eq_append_take, hrclen, List.take_take]
    have h0 : (limit * 7 + 9) / 10 - limit * 7 / 10 = 0 := by omega
    rw [h0, List.take_zero, List.append_nil]
    congr 1
    omega
  · have hc1 : (limit * 7 + 9) / 10 = limit * 7 / 10 + 1 := by omega
    have hget : limit * 7 / 10 < sorted.length := by omega
    rw [hc1, List.take_append_eq_append_take, hrclen, List.take_take]
    have hmin : min (limit * 7 / 10 + 1) (limit * 7 / 10) = limit * 7 / 10 := by omega
    have h1 : limit * 7 / 10 + 1 - limit * 7 / 10 = 1 := by omega
    rw [hmin, h1]
    have h0 : (fun i => (sorted.drop (limit * 7 / 10))[i * max 1
        ((sorted.drop (limit * 7 / 10)).length / (limit - limit * 7 / 10))]?) 0 =
        some (sorted.get ⟨limit * 7 / 10, hget⟩) := by
      show (sorted.drop (limit * 7 / 10))[0 * max 1
        ((sorted.drop (limit * 7 / 10)).length / (limit - limit * 7 / 10))]? = _
      rw [Nat.zero_mul, List.getElem?_drop, Nat.add_zero,
        List.getElem?_eq_getElem hget]
      simp [List.get_eq_getElem]
    obtain ⟨rest, hrest⟩ := filterMap_range_head (limit - limit * 7 / 10) hdpos
      (fun i => (sorted.drop (limit * 7 / 10))[i * max 1
        ((sorted.drop (limit * 7 / 10)).length / (limit - limit * 7 / 10))]?)
      (sorted.get ⟨limit * 7 / 10, hget⟩) h0
    rw [hrest, List.take_succ_cons, List.take_zero, List.take_succ,
      List.getElem?_eq_getElem hget]
    simp [List.get_eq_getElem]

/-! ### Stability of the date sort (for C1's tie-breaking clause) -/

theorem filter_orderedInsert_date (d : Int) (a : Commit) (l : List Commit) :
    (List.orderedInsert byDateDesc a l).filter (fun x => x.date = d) =
      if a.date = d then a :: l.filter (fun x => x.date = d)
      else l.filter (fun x => x.date = d) := by
  induction l with
  | nil => by_cases h : a.date = d <;> simp [List.orderedInsert, h]
  | cons b l ih =>
    rw [List.orderedInsert]
    by_cases hr : byDateDesc a b
    · rw [if_pos hr]
      by_cases ha : a.date = d <;> simp [List.filter_cons, ha]
    · rw [if_neg hr]
      by_cases hb : b.date = d
      · have ha : ¬ a.date = d := by
          intro ha
          exact hr (le_of_eq (hb.trans ha.symm))
        simp [List.filter_cons, hb, ha, ih]
      · simp [List.filter_cons, hb, ih]

theorem filter_insertionSort_date (d : Int) (l : List Commit) :
    (List.insertionSort byDateDesc l).filter (fun x => x.date = d) =
      l.filter (fun x => x.date = d) := by
  induction l with
  | nil => rfl
  | cons a l ih =>
    rw [show List.insertionSort byDateDesc (a :: l) =
        List.orderedInsert byDateDesc a (List.insertionSort byDateDesc l) from rfl]
    rw [filter_orderedInsert_date, ih, List.filter_cons]
    by_cases h : a.date = d <;> simp [h]

/-- Claim C1: for every commit list and positive limit, `sampleCommits`
returns exactly `min limit commits.length` items, and when the list is
longer than the limit the first `⌈limit * 0.7⌉ = (limit * 7 + 9) / 10`
output items coincide with the same-length prefix of the stable
newest-first sort of the input — they are the newest-dated commits, ties
between equal dates broken by original input order (the sort is a sorted
permutation whose equal-date fibres keep the input's order). -/
theorem c1_sampleCommits_spec (commits : List Commit) (limit : Nat) (hpos : 0 < limit) :
    (sampleCommits commits limit).length = min limit commits.length ∧
    (limit < commits.length →
      (sampleCommits commits limit).take ((limit * 7 + 9) / 10) =
        (List.insertionSort byDateDesc commits).take ((limit * 7 + 9) / 10) ∧
      List.Sorted byDateDesc (List.insertionSort byDateDesc commits) ∧
      (List.insertionSort byDateDesc commits).Perm commits ∧
      ∀ d : Int, (List.insertionSort byDateDesc commits).filter (fun x => x.date = d) =
        commits.filter (fun x => x.date = d)) := by
  by_cases hle : commits.length ≤ limit
  · constructor
    · rw [sampleCommits, if_pos hle]
      omega
    · intro hlt
      exact absurd hlt (by omega)
  · push_neg at hle
    have hsl : limit < (List.insertionSort byDateDesc commits).length := by
      rw [List.length_insertionSort]; omega
    constructor
    · rw [sampleCommits, if_neg (by omega)]
      have := sample_core_length (List.insertionSort byDateDesc commits) limit hpos hsl
      exact this.trans (by omega)
    · intro _
      refine ⟨?_, List.sorted_insertionSort byDateDesc commits,
        List.perm_insertionSort byDateDesc commits, fun d => filter_insertionSort_date d commits⟩
      rw [sampleCommits, if_neg (by omega)]
      exact sample_core_take (List.insertionSort byDateDesc commits) limit hpos hsl

/-- Witness for C1 at three demo commits and limit 2. -/
theorem c1_sampleCommits_spec_witness :
    0 < 2 ∧
    ((sampleCommits demoCommits 2).length = min 2 demoCommits.length ∧
      (2 < demoCommits.length →
        (sampleCommits demoCommits 2).take ((2 * 7 + 9) / 10) =
          (List.insertionSort byDateDesc demoCommits).take ((2 * 7 + 9) / 10) ∧
        List.Sorted byDateDesc (List.insertionSort byDateDesc demoCommits) ∧
        (List.insertionSort byDateDesc demoCommits).Perm demoCommits ∧
        ∀ d : Int, (List.insertionSort byDateDesc demoCommits).filter (fun x => x.date = d) =
          demoCommits.filter (fun x => x.date = d))) :=
  ⟨by decide, c1_sampleCommits_spec demoCommits 2 (by decide)⟩

/-! ### Trim and fence-stripping lemmas (for C7) -/

theorem isPrefixOf_app (l t : List Char) : l.isPrefixOf (l ++ t) = true := by
  induction l with
  | nil => simp [List.isPrefixOf]
  | cons a l ih => simp [List.isPrefixOf, ih]

theorem isSuffixOf_app (l t : List Char) : t.isSuffixOf (l ++ t) = true := by
  show t.reverse.isPrefixOf (l ++ t).reverse = true
  rw [List.reverse_append]
  exact isPrefixOf_app t.reverse l.reverse

theorem trimL_cons_ws (c : Char) (l : List Char) (h : isWsChar c = true) :
    trimL (c :: l) = trimL l := by
  simp [trimL, List.dropWhile_cons, h]

theorem trimL_cons_not_ws (c : Char) (l : List Char) (h : isWsChar c = false) :
    trimL (c :: l) = c :: l := by
  simp [trimL, List.dropWhile_cons, h]

theorem trimL_append_of_head (s : List Char) (c : Char) (t rest : List Char)
    (h : trimL s = c :: t) : trimL (s ++ rest) = (c :: t) ++ rest := by
  unfold trimL at *
  rw [List.dropWhile_append, h]
  simp

theorem trimR_concat_ws (l : List Char) (c : Char) (h : isWsChar c = true) :
    trimR (l ++ [c]) = trimR l := by
  unfold trimR
  rw [List.reverse_append]
  simp [List.dropWhile_cons, h]

theorem trimR_concat_not_ws (l : List Char) (c : Char) (h : isWsChar c = false) :
    trimR (l ++ [c]) = l ++ [c] := by
  unfold trimR
  rw [List.reverse_append]
  simp [List.dropWhile_cons, h]

theorem dropWhile_eq_cons_head {α : Type} (p : α → Bool) (l : List α) (c : α) (t : List α)
    (h : l.dropWhile p = c :: t) : p c = false := by
  induction l with
  | nil => cases h
  | cons a l ih =>
    rw [List.dropWhile_cons] at h
    by_cases hp : p a = true
    · rw [if_pos hp] at h
      exact ih h
    · rw [if_neg hp] at h
      cases h
      simpa using hp

theorem dropWhile_dropWhile {α : Type} (p : α → Bool) (l : List α) :
    (l.dropWhile p).dropWhile p = l.dropWhile p := by
  cases h : l.dropWhile p with
  | nil => rfl
  | cons c t => simp [List.dropWhile_cons, dropWhile_eq_cons_head p l c t h]

/-- Any list is its right-trim followed by its trailing whitespace run. -/
theorem trimR_append_junk (l : List Char) :
    l = trimR l ++ (l.reverse.takeWhile isWsChar).reverse := by
  unfold trimR
  conv_lhs => rw [← List.reverse_reverse l,
    ← List.takeWhile_append_dropWhile isWsChar l.reverse]
  rw [List.reverse_append]

theorem trimR_idem (l : List Char) : trimR (trimR l) = trimR l := by
  unfold trimR
  rw [List.reverse_reverse, dropWhile_dropWhile]

theorem trimC_idem (l : List Char) : trimC (trimC l) = trimC l := by
  unfold trimC
  have hL : trimL (trimR (trimL l)) = trimR (trimL l) := by
    cases h : trimR (trimL l) with
    | nil => rfl
    | cons c t =>
      have hjunk := trimR_append_junk (trimL l)
      rw [h] at hjunk
      have hc : isWsChar c = false := dropWhile_eq_cons_head isWsChar l c _ hjunk
      exact trimL_cons_not_ws c t hc
  rw [hL, trimR_idem]

theorem trimStr_idem (s : String) : trimStr (trimStr s) = trimStr s := by
  unfold trimStr
  exact congrArg String.mk (trimC_idem s.data)

theorem parseObj_trim (x : String) : parseObj (trimStr x) = parseObj x := by
  unfold parseObj
  rw [trimStr_idem]

/-- `stripEndFence` on a text followed by a newline-fence suffix removes the
fence and the whitespace before it. -/
theorem stripEndFence_core (x : List Char) :
    stripEndFence (x ++ "\n```".data) = trimR x := by
  unfold stripEndFence
  have h1 : x ++ "\n```".data = (x ++ ['\n']) ++ "```".data :=
    (List.append_assoc x ['\n'] "```".data).symm
  rw [if_pos (by rw [h1]; exact isSuffixOf_app _ _)]
  have h2 : (x ++ "\n```".data).length - 3 = (x ++ ['\n']).length := by
    simp only [List.length_append, show ("\n```".data).length = 4 from rfl,
      List.length_cons, List.length_nil]
    omega
  rw [h2, h1, List.take_left]
  exact trimR_concat_ws x '\n' (by decide)

/-- Stripping fences from the trimmed ` ```json `-wrapped payload recovers
the trimmed payload, provided the payload's first non-blank char is `{`. -/
theorem stripFences_wrapJson (s : String) (t1 : List Char)
    (hL : trimL s.data = '\x7b' :: t1) :
    stripFences (trimC (fenceWrapJson s).data) = trimC s.data := by
  have e2 : (fenceWrapJson s).data = ("```json\n".data ++ s.data ++ "\n``".data) ++ ['`'] :=
    (List.append_assoc ("```json\n".data ++ s.data) "\n``".data ['`']).symm
  have htrim : trimC (fenceWrapJson s).data = (fenceWrapJson s).data := by
    unfold trimC
    have h1 : trimL (fenceWrapJson s).data = (fenceWrapJson s).data := by
      have e1 : (fenceWrapJson s).data =
          '`' :: ("``json\n".data ++ s.data ++ "\n```".data) := rfl
      rw [e1, trimL_cons_not_ws _ _ (by decide)]
    rw [h1, e2, trimR_concat_not_ws _ _ (by decide)]
  rw [htrim]
  unfold stripFences
  have e3 : (fenceWrapJson s).data = "```json".data ++ ('\n' :: (s.data ++ "\n```".data)) := rfl
  rw [if_pos (by rw [e3]; exact isPrefixOf_app _ _)]
  have e4 : (fenceWrapJson s).data.drop 7 = '\n' :: (s.data ++ "\n```".data) := by
    rw [e3]
    exact List.drop_left' rfl
  rw [e4, trimL_cons_ws _ _ (by decide), trimL_append_of_head s.data '\x7b' t1 _ hL,
    stripEndFence_core, ← hL]
  exact rfl

/-- Same as `stripFences_wrapJson` for the bare ` ``` ` fence. -/
theorem stripFences_wrapPlain (s : String) (t1 : List Char)
    (hL : trimL s.data = '\x7b' :: t1) :
    stripFences (trimC (fenceWrapPlain s).data) = trimC s.data := by
  have e2 : (fenceWrapPlain s).data = ("```\n".data ++ s.data ++ "\n``".data) ++ ['`'] :=
    (List.append_assoc ("```\n".data ++ s.data) "\n``".data ['`']).symm
  have htrim : trimC (fenceWrapPlain s).data = (fenceWrapPlain s).data := by
    unfold trimC
    have h1 : trimL (fenceWrapPlain s).data = (fenceWrapPlain s).data := by
      have e1 : (fenceWrapPlain s).data =
          '`' :: ("``\n".data ++ s.data ++ "\n```".data) := rfl
      rw [e1, trimL_cons_not_ws _ _ (by decide)]
    rw [h1, e2, trimR_concat_not_ws _ _ (by decide)]
  rw [htrim]
  unfold stripFences
  have e5 : (fenceWrapPlain s).data = '`' :: '`' :: '`' :: '\n' :: (s.data ++ "\n```".data) := rfl
  rw [if_neg (by
    rw [e5, show "```json".data = '`' :: '`' :: '`' :: 'j' :: 's' :: 'o' :: 'n' :: [] from rfl]
    simp [List.isPrefixOf])]
  have e3 : (fenceWrapPlain s).data = "```".data ++ ('\n' :: (s.data ++ "\n```".data)) := rfl
  rw [if_pos (by rw [e3]; exact isPrefixOf_app _ _)]
  have e4 : (fenceWrapPlain s).data.drop 3 = '\n' :: (s.data ++ "\n```".data) := by
    rw [e3]
    exact List.drop_left' rfl
  rw [e4, trimL_cons_ws _ _ (by decide), trimL_append_of_head s.data '\x7b' t1 _ hL,
    stripEndFence_core, ← hL]
  exact rfl

/-- An unwrapped object text (first non-blank char `{`) passes through the
fence stripper unchanged. -/
theorem stripFences_obj (s : String) (t0 : List Char)
    (hHead : trimC s.data = '\x7b' :: t0) :
    stripFences (trimC s.data) = trimC s.data := by
  rw [hHead]
  unfold stripFences
  rw [if_neg (by
    rw [show "```json".data = '`' :: '`' :: '`' :: 'j' :: 's' :: 'o' :: 'n' :: [] from rfl]
    simp [List.isPrefixOf]), if_neg (by
    rw [show "```".data = '`' :: '`' :: '`' :: [] from rfl]
    simp [List.isPrefixOf])]

/-- Claim C7: for every string that parses as a JSON object, extraction from
the string wrapped in ` ```json ... ``` ` or ` ``` ... ``` ` fences and
extraction from the unwrapped string all succeed and recover the same JSON
value.  `parse` abstracts `JSON.parse` (assumed whitespace-trim-invariant,
as `JSON.parse` is); an object text starts with `{` after trimming. -/
theorem c7_fence_invariance {J : Type} (parse : String → Option J)
    (findSpan : String → Option String) (s : String) (v : J)
    (hTrim : ∀ x : String, parse (trimStr x) = parse x)
    (hs : parse s = some v)
    (hObj : ∃ t, (trimStr s).data = '\x7b' :: t) :
    (∃ r, extractJSONFromResponse parse findSpan (fenceWrapJson s) = some r ∧
      parse r = some v) ∧
    (∃ r, extractJSONFromResponse parse findSpan (fenceWrapPlain s) = some r ∧
      parse r = some v) ∧
    (∃ r, extractJSONFromResponse parse findSpan s = some r ∧ parse r = some v) := by
  obtain ⟨t0, hHead⟩ := hObj
  have hHead' : trimC s.data = '\x7b' :: t0 := hHead
  have hL : ∃ t1, trimL s.data = '\x7b' :: t1 := by
    have hjunk := trimR_append_junk (trimL s.data)
    rw [show trimR (trimL s.data) = trimC s.data from rfl, hHead'] at hjunk
    exact ⟨_, hjunk⟩
  obtain ⟨t1, hL⟩ := hL
  have hparseTrim : parse (trimStr s) = some v := by rw [hTrim]; exact hs
  have hmk1 : (⟨stripFences (trimC (fenceWrapJson s).data)⟩ : String) = trimStr s := by
    rw [stripFences_wrapJson s t1 hL]
    exact rfl
  have hmk2 : (⟨stripFences (trimC (fenceWrapPlain s).data)⟩ : String) = trimStr s := by
    rw [stripFences_wrapPlain s t1 hL]
    exact rfl
  have hmk3 : (⟨stripFences (trimC s.data)⟩ : String) = trimStr s := by
    rw [stripFences_obj s t0 hHead']
    exact rfl
  refine ⟨⟨trimStr s, ?_, hparseTrim⟩, ⟨trimStr s, ?_, hparseTrim⟩,
    ⟨trimStr s, ?_, hparseTrim⟩⟩
  · simp only [extractJSONFromResponse, hmk1, hparseTrim, Option.isSome_some, if_true]
  · simp only [extractJSONFromResponse, hmk2, hparseTrim, Option.isSome_some, if_true]
  · simp only [extractJSONFromResponse, hmk3, hparseTrim, Option.isSome_some, if_true]

/-- Witness for C7 at the object text `{}` and a concrete trim-invariant
parser. -/
theorem c7_fence_invariance_witness :
    (parseObj "\x7b\x7d" = some ()) ∧
    ((∃ r, extractJSONFromResponse parseObj fsNone (fenceWrapJson "\x7b\x7d") = some r ∧
        parseObj r = some ()) ∧
      (∃ r, extractJSONFromResponse parseObj fsNone (fenceWrapPlain "\x7b\x7d") = some r ∧
        parseObj r = some ()) ∧
      (∃ r, extractJSONFromResponse parseObj fsNone "\x7b\x7d" = some r ∧
        parseObj r = some ())) :=
  ⟨by decide, c7_fence_invariance parseObj fsNone "\x7b\x7d" () parseObj_trim (by decide)
    ⟨['\x7d'], by decide⟩⟩

/-! ### Orchestrator result-shape lemmas (for C9) -/

/-- A completed chunked analysis always yields a complete analysis: it ends
in the merge of the successful chunks or in the local fallback, and throws
nothing. -/
theorem chunkedCore_shape (env : Env) (data : RepoData) (k : Nat)
    (recur : RepoData → Nat → Option (Except Unit (Option ExpertiseAnalysis) × Nat))
    (r : Except Unit (Option ExpertiseAnalysis) × Nat)
    (h : chunkedCore env data k recur = some r) :
    ∃ a kk, r = (Except.ok (some a), kk) := by
  rw [chunkedCore] at h
  cases hcl : chunkLoopStep (fun d kk => stdStep env d kk recur) data
      (chunkArray data.contributors 10) k with
  | none => rw [hcl] at h; cases h
  | some p =>
    obtain ⟨results, kk⟩ := p
    rw [hcl] at h
    by_cases he : results.isEmpty
    · simp only [he, if_true] at h
      exact ⟨_, _, (Option.some.inj h).symm⟩
    · simp only [he, Bool.false_eq_true, if_false] at h
      exact ⟨_, _, (Option.some.inj h).symm⟩

theorem chunked_result_shape (fuel : Nat) (env : Env) (data : RepoData) (k : Nat)
    (r : Except Unit (Option ExpertiseAnalysis) × Nat)
    (h : performChunkedAnalysis fuel env data k = some r) :
    ∃ a kk, r = (Except.ok (some a), kk) := by
  cases fuel with
  | zero => exact chunkedCore_shape env data k _ r h
  | succ f => exact chunkedCore_shape env data k _ r h

/-- A completed standard analysis with an available token yields either a
complete analysis or a thrown (non-413) error — never `null`. -/
theorem standard_result_with_token (fuel : Nat) (env : Env) (data : RepoData) (k : Nat)
    (r : Except Unit (Option ExpertiseAnalysis) × Nat)
    (htok : env.apiKey.isSome = true)
    (h : performStandardAnalysis fuel env data k = some r) :
    (∃ a kk, r = (Except.ok (some a), kk)) ∨ (∃ kk, r = (Except.error (), kk)) := by
  rw [performStandardAnalysis, stdStep] at h
  cases hk : env.apiKey with
  | none => rw [hk] at htok; cases htok
  | some key =>
    simp only [hk] at h
    cases hc : env.call k with
    | ok resp =>
      simp only [hc] at h
      exact Or.inl ⟨_, _, (Option.some.inj h).symm⟩
    | errOther =>
      simp only [hc] at h
      exact Or.inr ⟨_, (Option.some.inj h).symm⟩
    | err413 =>
      simp only [hc] at h
      cases fuel with
      | zero => simp only at h; cases h
      | succ f =>
        simp only at h
        exact Or.inl (chunked_result_shape f env data (k + 1) r h)

/-- Claim C9 (amended): every *completed* run of the orchestrator
(`performSmartAIAnalysis`) propagates no exception to its caller — every
exceptional failure resolves to the chunked strategy or the local
fallback — and when an API token is available a completed run returns a
complete `ExpertiseAnalysis`.  (With no token the standard path completes
with `null`, and under persistent HTTP 413 the standard↔chunked recursion
need not complete at all — hence the fuel-indexed completion hypothesis.) -/
theorem c9_amended_orchestrator (fuel : Nat) (env : Env) (data : RepoData) (k : Nat)
    (r : Except Unit (Option ExpertiseAnalysis) × Nat)
    (h : performSmartAIAnalysis fuel env data k = some r) :
    (∀ u kk, r ≠ (Except.error u, kk)) ∧
    (env.apiKey.isSome = true → ∃ a kk, r = (Except.ok (some a), kk)) := by
  rw [performSmartAIAnalysis] at h
  cases hr0 : (if 100000 < estimatePromptSize data then performChunkedAnalysis fuel env data k
      else performStandardAnalysis fuel env data k) with
  | none => rw [hr0] at h; cases h
  | some p =>
    obtain ⟨e, kk⟩ := p
    rw [hr0] at h
    cases e with
    | error u =>
      simp only at h
      cases Option.some.inj h
      refine ⟨fun u kk hne => ?_, fun _ => ⟨_, _, rfl⟩⟩
      simp at hne
    | ok v =>
      simp only at h
      cases Option.some.inj h
      refine ⟨fun u kk hne => ?_, fun htok => ?_⟩
      · simp at hne
      by_cases hsize : 100000 < estimatePromptSize data
      · rw [if_pos hsize] at hr0
        obtain ⟨a, kk2, hp⟩ := chunked_result_shape fuel env data k _ hr0
        exact ⟨a, kk2, hp⟩
      · rw [if_neg hsize] at hr0
        rcases standard_result_with_token fuel env data k _ htok hr0 with ⟨a, kk2, hp⟩ | ⟨kk2, hp⟩
        · exact ⟨a, kk2, hp⟩
        · exact absurd hp (by simp)

/-- Counterexample to claim C9 as stated: with no API token and a small
prompt, the orchestrator completes and hands `null` to its caller (the
caller `analyzeRepository` indeed guards `if (!analysis)`), so it does not
always return a complete `ExpertiseAnalysis`. -/
theorem c9_counterexample :
    performSmartAIAnalysis 5 envNull dataW 0 = some (Except.ok none, 0) := rfl

/-- Witness for C9 (amended): a completed run with a token present. -/
theorem c9_amended_orchestrator_witness :
    performSmartAIAnalysis 5 envOk dataW 0 = some rW0 ∧
    ((∀ u kk, rW0 ≠ (Except.error u, kk)) ∧
      (envOk.apiKey.isSome = true → ∃ a kk, rW0 = (Except.ok (some a), kk))) := by
  have h : performSmartAIAnalysis 5 envOk dataW 0 = some rW0 := by
    rfl
  exact ⟨h, c9_amended_orchestrator 5 envOk dataW 0 rW0 h⟩

end TeamXray
